import Mathlib

/-!
Verification of the population/view/parameter addressing subsystem of the
PyNN repository.  The Population / PopulationView machinery itself is not
present under src/ (only its unit tests are), so those operations are
modelled from the specification (sections 3, 4.1, 4.2, 4.3, 4.6, 4.7);
`cells.py` and `utility.py` are embedded from the source directly.
-/

/-- Unit identifiers are plain naturals (opaque integers in the spec). -/
abbrev ID := Nat

/-- Modelled from the spec: a Population owns a contiguous identity range
`[first_id, first_id + size - 1]`. -/
structure Population where
  first_id : ID
  size : Nat
deriving DecidableEq

/-- The materialized identifier list of a Population, in creation order. -/
def Population.all_cells (p : Population) : List ID :=
  (List.range p.size).map (fun i => p.first_id + i)

/-- Modelled from the spec (§4.2): the selector forms accepted when deriving a
PopulationView: a slice, a boolean mask, an integer index array, or a tuple
of integers. -/
inductive Selector where
  | sl (start stop step : Option Int)
  | boolMask (m : List Bool)
  | idx (l : List Int)
  | tup (l : List Int)
deriving DecidableEq

/-- Error taxonomy for addressing (spec §7): index errors for out-of-range
identifiers/indices, value errors for a zero slice step. -/
inductive AddrError where
  | indexError
  | valueError
deriving DecidableEq

/-- Python slice normalization (`slice.indices(n)`): clamp start/stop into
range and default them from the step sign. -/
def pySliceParams (start stop step : Option Int) (n : Nat) : Int × Int × Int :=
  let st : Int := step.getD 1
  let lower : Int := if st < 0 then -1 else 0
  let upper : Int := if st < 0 then (n : Int) - 1 else (n : Int)
  let b : Int :=
    match start with
    | none => if st < 0 then upper else lower
    | some b0 => if b0 < 0 then max (b0 + (n : Int)) lower else min b0 upper
  let e : Int :=
    match stop with
    | none => if st < 0 then lower else upper
    | some e0 => if e0 < 0 then max (e0 + (n : Int)) lower else min e0 upper
  (b, e, st)

/-- Number of elements selected by a normalized slice `(b, e, st)`. -/
def sliceLength (b e st : Int) : Nat :=
  if st < 0 then ((b - e).toNat + ((-st).toNat - 1)) / (-st).toNat
  else ((e - b).toNat + (st.toNat - 1)) / st.toNat

/-- The parent positions selected by a slice, in slice order (possibly
descending for a negative step). -/
def slicePositions (start stop step : Option Int) (n : Nat) : List Nat :=
  let q := pySliceParams start stop step n
  (List.range (sliceLength q.1 q.2.1 q.2.2)).map (fun i => (q.1 + q.2.2 * i).toNat)

/-- Positions of `true` entries of a boolean mask, counting from `k`. -/
def truePositionsFrom : List Bool → Nat → List Nat
  | [], _ => []
  | b :: rest, k =>
      if b then k :: truePositionsFrom rest (k + 1) else truePositionsFrom rest (k + 1)

/-- Positions of `true` entries of a boolean mask, in parent order. -/
def truePositions (m : List Bool) : List Nat :=
  truePositionsFrom m 0

/-- Normalize one integer index against length `n` with Python negative-index
semantics; out of range is an index error. -/
def normIndex (i : Int) (n : Nat) : Except AddrError Nat :=
  let j : Int := if i < 0 then i + n else i
  if 0 ≤ j ∧ j < n then .ok j.toNat else .error .indexError

/-- Normalize a whole integer index array, failing on the first bad index. -/
def normIndices (l : List Int) (n : Nat) : Except AddrError (List Nat) :=
  match l with
  | [] => .ok []
  | i :: rest =>
      match normIndex i n, normIndices rest n with
      | .ok j, .ok js => .ok (j :: js)
      | .error e, _ => .error e
      | .ok _, .error e => .error e

/-- Modelled from the spec (§4.2): normalize a selector over a parent of size
`n` into the list of selected parent positions, in selection order. -/
def resolveSelector (s : Selector) (n : Nat) : Except AddrError (List Nat) :=
  match s with
  | .sl start stop step =>
      if step = some 0 then .error .valueError
      else .ok (slicePositions start stop step n)
  | .boolMask m => if m.length = n then .ok (truePositions m) else .error .indexError
  | .idx l => normIndices l n
  | .tup l => normIndices l n

/-- Direct element gathering by an integer index array (NumPy fancy
indexing on a concrete list). -/
def gatherIndices (l : List Int) (xs : List ID) : Except AddrError (List ID) :=
  match l with
  | [] => .ok []
  | i :: rest =>
      match normIndex i xs.length, gatherIndices rest xs with
      | .ok j, .ok ys => .ok (xs.getD j 0 :: ys)
      | .error e, _ => .error e
      | .ok _, .error e => .error e

/-- NumPy-style selection of a concrete list by a selector, written directly
on the elements (slice extraction, boolean compress, fancy indexing); this is
the specification-side description the view construction is compared with. -/
def npSelect (s : Selector) (xs : List ID) : Except AddrError (List ID) :=
  match s with
  | .sl start stop step =>
      if step = some 0 then .error .valueError
      else .ok ((slicePositions start stop step xs.length).map (fun i => xs.getD i 0))
  | .boolMask m =>
      if m.length = xs.length then
        .ok (((xs.zip m).filter (fun q => q.2)).map (fun q => q.1))
      else .error .indexError
  | .idx l => gatherIndices l xs
  | .tup l => gatherIndices l xs

/-- Modelled from the spec (§3): a population-like object is either a root
Population or a PopulationView holding its immediate parent, its mask, and
its materialized absolute identifiers in mask order. -/
inductive PopLike where
  | pop (p : Population)
  | view (parent : PopLike) (mask : Selector) (cells : List ID)
deriving DecidableEq

/-- The materialized identifiers of a population-like object. -/
def PopLike.all_cells : PopLike → List ID
  | .pop p => p.all_cells
  | .view _ _ cells => cells

/-- Size is the length of the materialized identifier list. -/
def PopLike.size (pl : PopLike) : Nat :=
  pl.all_cells.length

/-- The immediate parent of a view (`none` for a root Population). -/
def PopLike.parentObj : PopLike → Option PopLike
  | .pop _ => none
  | .view par _ _ => some par

/-- Root resolution: walk parent references until a Population is reached. -/
def PopLike.rootPop : PopLike → Population
  | .pop p => p
  | .view par _ _ => par.rootPop

/-- Modelled from the spec (§4.2): `PopulationView(parent, selector)`
normalizes the selector against the parent and materializes the selected
identifiers from the parent's `all_cells`, in selection order. -/
def PopulationView.create (parent : PopLike) (s : Selector) : Except AddrError PopLike :=
  match resolveSelector s parent.size with
  | .ok pos => .ok (.view parent s (pos.map (fun i => parent.all_cells.getD i 0)))
  | .error e => .error e

/-- Modelled from the spec (§4.1): `id_to_index` returns the position of an
identifier within the view's own `all_cells` ordering, failing with an index
error when the identifier is not a member of the view. -/
def PopLike.id_to_index (pl : PopLike) (c : ID) : Except AddrError Nat :=
  match pl.all_cells.findIdx? (fun x => x = c) with
  | some j => .ok j
  | none => .error .indexError

/-- Operation `id_to_index` on an array of identifiers: the array of view-local
indices, failing on the first non-member. -/
def PopLike.ids_to_indices (pl : PopLike) (cs : List ID) : Except AddrError (List Nat) :=
  match cs with
  | [] => .ok []
  | c :: rest =>
      match pl.id_to_index c, pl.ids_to_indices rest with
      | .ok j, .ok js => .ok (j :: js)
      | .error e, _ => .error e
      | .ok _, .error e => .error e

/-- The positions, within the root Population's parameter arrays, addressed
by this object (identifier minus the root's `first_id`), in view order. -/
def PopLike.rootPositions (pl : PopLike) : List Nat :=
  pl.all_cells.map (fun c => c - pl.rootPop.first_id)

/-- Write `vals` elementwise at the listed positions of a materialized
parameter array (position `i` receives element `i`, in order). -/
def writeAt (st : List ℚ) : List Nat → List ℚ → List ℚ
  | [], _ => st
  | _ :: _, [] => st
  | p :: ps, v :: vs => writeAt (st.set p v) ps vs

/-- Modelled from the spec (§4.3): `set(param=array)` through a view writes
the array elementwise to the addressed root positions only. -/
def PopLike.setP (pl : PopLike) (vals : List ℚ) (st : List ℚ) : List ℚ :=
  writeAt st pl.rootPositions vals

/-- Modelled from the spec (§4.3): `get(param)` through a view reads the
addressed root positions, in view order. -/
def PopLike.getP (pl : PopLike) (st : List ℚ) : List ℚ :=
  pl.rootPositions.map (fun p => st.getD p 0)

/-- Modelled from the spec (§3, §9): a parameter is stored either as one
homogeneous scalar or as a per-unit array. -/
inductive ParamValue where
  | homogeneous (x : ℚ)
  | perUnit (xs : List ℚ)
deriving DecidableEq

/-- The value a stored parameter takes at root position `i`. -/
def ParamValue.evalAt : ParamValue → Nat → ℚ
  | .homogeneous x, _ => x
  | .perUnit xs, i => xs.getD i 0

/-- Result of a `get`: a single scalar or a per-unit array. -/
inductive GetResult where
  | scalar (x : ℚ)
  | array (xs : List ℚ)
deriving DecidableEq

/-- Modelled from the spec (§4.3): collapse a list of addressed values to a
single scalar exactly when they all agree. -/
def simplifyValues : List ℚ → GetResult
  | [] => .array []
  | x :: rest => if rest.all (fun y => y = x) then .scalar x else .array (x :: rest)

/-- Modelled from the spec (§4.3): `get(name)` evaluates the stored parameter
at every addressed unit, in view order, and simplifies to a scalar when the
addressed units all share one value. -/
def PopLike.getParam (pl : PopLike) (pv : ParamValue) : GetResult :=
  simplifyValues (pl.rootPositions.map (ParamValue.evalAt pv))

/-- Modelled from the spec (§4.6): `sample(k, perm)` gathers the first `k`
entries of the caller-supplied permutation as an index-array selector,
yielding a new view in permutation order. -/
def PopLike.sample (pl : PopLike) (k : Nat) (perm : List Nat) : Except AddrError PopLike :=
  PopulationView.create pl (.idx ((perm.take k).map Int.ofNat))

/-- Modelled from the spec (§4.7): one closed recording segment: the
variables recorded during it and its accumulated run duration. -/
structure RecSegment where
  vars : List String
  duration : ℚ
deriving DecidableEq

/-- Modelled from the spec (§4.7): recording bookkeeping for a view: the
accumulated set of recorded variables, the closed segments, and the duration
of the active segment. -/
structure RecState where
  recording : List String
  closed : List RecSegment
  currentDuration : ℚ
deriving DecidableEq

/-- The initial recording state: nothing recorded, one empty active segment. -/
def initRecState : RecState :=
  ⟨[], [], 0⟩

/-- Modelled from the spec (§4.7): `record(v)` accumulates a variable;
previously recorded variables are kept. -/
def recordVar (v : String) (s : RecState) : RecState :=
  if v ∈ s.recording then s else { s with recording := s.recording ++ [v] }

/-- Operation `run(d)` extends the active segment by `d`. -/
def runFor (d : ℚ) (s : RecState) : RecState :=
  { s with currentDuration := s.currentDuration + d }

/-- Modelled from the spec (§4.7): `reset()` closes the active segment
(freezing its recorded variables and span) and opens a fresh one. -/
def resetRec (s : RecState) : RecState :=
  { recording := s.recording,
    closed := s.closed ++ [⟨s.recording, s.currentDuration⟩],
    currentDuration := 0 }

/-- Number of samples of an analog signal over duration `d` at sampling
period `dt`: `round(d/dt) + 1`, inclusive of the initial sample at t = 0. -/
def sampleCount (dt d : ℚ) : Nat :=
  (round (d / dt)).toNat + 1

/-- Modelled from the spec (§4.7): `get_data` returns one entry per
closed-plus-active segment; each entry holds, per recorded variable, the
series name and its shape `(samples, recorded units)`. -/
def getDataSegs (dt : ℚ) (nUnits : Nat) (s : RecState) : List (List (String × Nat × Nat)) :=
  (s.closed ++ [(⟨s.recording, s.currentDuration⟩ : RecSegment)]).map
    (fun seg => seg.vars.map (fun v => (v, sampleCount dt seg.duration, nUnits)))

/-- A Python parameter value as used in `cells.py`: a number, a plain list of
numbers, or a numpy float array (numbers modelled as rationals). -/
inductive PyVal where
  | num (x : ℚ)
  | list (xs : List ℚ)
  | floatArray (xs : List ℚ)
deriving DecidableEq

/-- Conversion `numpy.array(x, 'float')` on a list of numbers: the same values, tagged
as a float array. -/
def numpyFloatArray : PyVal → PyVal
  | .num x => .floatArray [x]
  | .list xs => .floatArray xs
  | .floatArray xs => .floatArray xs

/-- A standard cell type descriptor: default parameters, the recordable
variable names, and whether the model is conductance based (`cells.py`). -/
structure CellTypeData where
  default_parameters : List (String × PyVal)
  recordable : List String
  conductance_based : Bool
deriving DecidableEq

/-- Cell type `IF_curr_alpha` from `cells.py`: current-based integrate-and-fire with
alpha-shaped synaptic current; records only spikes and v. -/
def IF_curr_alpha : CellTypeData :=
  { default_parameters :=
      [("v_rest", .num (-65)), ("cm", .num 1), ("tau_m", .num 20),
       ("tau_refrac", .num 0), ("tau_syn_E", .num (1/2)), ("tau_syn_I", .num (1/2)),
       ("i_offset", .num 0), ("v_reset", .num (-65)), ("v_thresh", .num (-50)),
       ("v_init", .num (-65))],
    recordable := ["spikes", "v"],
    conductance_based := false }

/-- Defaults `SpikeSourceArray.default_parameters` from `cells.py`: the default
`spike_times` is the empty list. -/
def SpikeSourceArray.default_parameters : List (String × PyVal) :=
  [("spike_times", .list [])]

/-- Recordable set `SpikeSourceArray.recordable` from `cells.py`. -/
def SpikeSourceArray.recordable : List String :=
  ["spikes"]

/-- Replace the value stored under a key of a parameter dictionary (the key
is known to be present when this is called). -/
def setKey (k : String) (v : PyVal) : List (String × PyVal) → List (String × PyVal)
  | [] => []
  | (k2, v2) :: rest => if k2 = k then (k2, v) :: rest else (k2, v2) :: setKey k v rest

/-- Constructor `SpikeSourceArray.__init__` from `cells.py`: when the parameters mapping
is non-empty and holds the key `spike_times`, that entry is converted with
`numpy.array(, 'float')` before delegating to the base constructor;
otherwise the mapping is passed through unchanged. -/
def SpikeSourceArray.init (parameters : List (String × PyVal)) : List (String × PyVal) :=
  if parameters.isEmpty then parameters
  else
    match parameters.lookup "spike_times" with
    | some v => setKey "spike_times" (numpyFloatArray v) parameters
    | none => parameters

/-- Predicate `can_record` of a cell type: membership in its recordable list. -/
def can_record (ct : CellTypeData) (v : String) : Bool :=
  ct.recordable.contains v

/-- Add the addressed unit positions to the recorded-unit list of one
variable (appending a fresh entry when the variable is new). -/
def markRecorded (v : String) (positions : List Nat) :
    List (String × List Nat) → List (String × List Nat)
  | [] => [(v, positions)]
  | (w, ps) :: rest =>
      if w = v then (w, ps ++ positions) :: rest else (w, ps) :: markRecorded v positions rest

/-- The units currently marked as recording a variable. -/
def recordedUnits (v : String) : List (String × List Nat) → List Nat
  | [] => []
  | (w, ps) :: rest => if w = v then ps else recordedUnits v rest

/-- Modelled from the spec (§4.7): `record(names)` through a view marks the
addressed units as recording every requested variable, and fails with a
recording error when any name is outside the cell type's recordable set. -/
def recordOp (ct : CellTypeData) (names : List String) (positions : List Nat)
    (st : List (String × List Nat)) : Except String (List (String × List Nat)) :=
  if names.all (fun v => ct.recordable.contains v) then
    .ok (names.foldl (fun acc v => markRecorded v positions acc) st)
  else .error "RecordingError"

/-- Class `Timer` from `utility.py`: wall-clock times are passed in explicitly
(`time.time()` results), so a timer is its two stored checkpoints. -/
structure Timer where
  start_time : ℚ
  last_check : ℚ
deriving DecidableEq

/-- Method `Timer.start`: both checkpoints are set to the current time. -/
def Timer.start (now : ℚ) : Timer :=
  ⟨now, now⟩

/-- The `format` argument of `Timer.diff` / `Timer.elapsedTime`. -/
inductive TimeFormat where
  | default
  | long
deriving DecidableEq

/-- Method `Timer.elapsedTime` from `utility.py` (numeric part): returns the time
since `_start_time` and advances `_last_check` to the current time. -/
def Timer.elapsedTime (t : Timer) (now : ℚ) : ℚ × Timer :=
  (now - t.start_time, ⟨t.start_time, now⟩)

/-- Method `Timer.diff` from `utility.py`: with the default format it returns the
time since `_last_check` and advances `_last_check`; the `format='long'`
branch reads the name `elapsed_time`, which is never bound inside `diff`,
so it raises a `NameError`. -/
def Timer.diff (t : Timer) (now : ℚ) (fmt : TimeFormat) : Except String (ℚ × Timer) :=
  match fmt with
  | .default => .ok (now - t.last_check, ⟨t.start_time, now⟩)
  | .long => .error "NameError"

/-- Decidable equality of fallible results, so that concrete runs of the
model can be checked by evaluation. -/
instance {ε α : Type} [DecidableEq ε] [DecidableEq α] : DecidableEq (Except ε α) := by
  intro a b
  cases a with
  | ok x =>
    cases b with
    | ok y =>
      exact if h : x = y then .isTrue (by rw [h]) else
        .isFalse (fun hc => h (Except.ok.inj hc))
    | error f => exact .isFalse (fun hc => Except.noConfusion hc)
  | error e =>
    cases b with
    | ok y => exact .isFalse (fun hc => Except.noConfusion hc)
    | error f =>
      exact if h : e = f then .isTrue (by rw [h]) else
        .isFalse (fun hc => h (Except.error.inj hc))

theorem truePositionsFrom_succ (m : List Bool) (k : Nat) :
    truePositionsFrom m (k + 1) = (truePositionsFrom m k).map (fun i => i + 1) := by
  induction m generalizing k with
  | nil => rfl
  | cons b rest ih =>
    cases b <;> simp [truePositionsFrom, ih]

theorem truePositions_gather (m : List Bool) (xs : List ID) (h : m.length = xs.length) :
    (truePositions m).map (fun i => xs.getD i 0) =
      ((xs.zip m).filter (fun q => q.2)).map (fun q => q.1) := by
  induction m generalizing xs with
  | nil =>
    cases xs with
    | nil => rfl
    | cons x xs => simp at h
  | cons b rest ih =>
    cases xs with
    | nil => simp at h
    | cons x xs =>
      have h2 : rest.length = xs.length := by simpa using h
      have hshift : (truePositionsFrom rest 1).map (fun i => (x :: xs).getD i 0) =
          (truePositions rest).map (fun i => xs.getD i 0) := by
        rw [show (1 : Nat) = 0 + 1 from rfl, truePositionsFrom_succ, List.map_map]
        exact List.map_congr_left (fun i _ => by simp)
      have hmain := hshift.trans (ih xs h2)
      cases b with
      | false =>
        show (truePositionsFrom (false :: rest) 0).map (fun i => (x :: xs).getD i 0) = _
        rw [show truePositionsFrom (false :: rest) 0 = truePositionsFrom rest 1 from rfl]
        rw [List.zip_cons_cons, List.filter_cons_of_neg (by simp)]
        exact hmain
      | true =>
        show (truePositionsFrom (true :: rest) 0).map (fun i => (x :: xs).getD i 0) = _
        rw [show truePositionsFrom (true :: rest) 0 = 0 :: truePositionsFrom rest 1 from rfl]
        rw [List.zip_cons_cons, List.filter_cons_of_pos (by simp), List.map_cons, List.map_cons]
        exact congrArg (fun l => x :: l) hmain

theorem gatherIndices_eq (l : List Int) (xs : List ID) :
    gatherIndices l xs =
      match normIndices l xs.length with
      | .ok js => .ok (js.map (fun j => xs.getD j 0))
      | .error e => .error e := by
  induction l with
  | nil => rfl
  | cons i rest ih =>
    simp only [gatherIndices, normIndices]
    cases normIndex i xs.length with
    | error e => rfl
    | ok j =>
      rw [ih]
      cases normIndices rest xs.length <;> rfl

theorem create_all_cells (parent : PopLike) (s : Selector) :
    (PopulationView.create parent s).map PopLike.all_cells = npSelect s parent.all_cells := by
  cases s with
  | sl a b c =>
    by_cases hc : c = some 0
    · rw [show PopulationView.create parent (.sl a b c) = .error .valueError by
        simp [PopulationView.create, resolveSelector, hc]]
      rw [show npSelect (.sl a b c) parent.all_cells = .error .valueError by
        simp [npSelect, hc]]
      rfl
    · rw [show PopulationView.create parent (.sl a b c) = .ok (.view parent (.sl a b c)
          ((slicePositions a b c parent.all_cells.length).map
            (fun i => parent.all_cells.getD i 0))) by
        simp [PopulationView.create, resolveSelector, hc]; rfl]
      rw [show npSelect (.sl a b c) parent.all_cells = .ok
          ((slicePositions a b c parent.all_cells.length).map
            (fun i => parent.all_cells.getD i 0)) by simp [npSelect, hc]]
      rfl
  | boolMask m =>
    by_cases hm : m.length = parent.all_cells.length
    · rw [show PopulationView.create parent (.boolMask m) = .ok (.view parent (.boolMask m)
          ((truePositions m).map (fun i => parent.all_cells.getD i 0))) by
        simp [PopulationView.create, resolveSelector, PopLike.size, hm]]
      rw [show npSelect (.boolMask m) parent.all_cells = .ok
          (((parent.all_cells.zip m).filter (fun q => q.2)).map (fun q => q.1)) by
        simp [npSelect, hm]]
      exact congrArg Except.ok (truePositions_gather m parent.all_cells hm)
    · rw [show PopulationView.create parent (.boolMask m) = .error .indexError by
        simp [PopulationView.create, resolveSelector, PopLike.size, hm]]
      rw [show npSelect (.boolMask m) parent.all_cells = .error .indexError by
        simp [npSelect, hm]]
      rfl
  | idx l =>
    rw [show npSelect (.idx l) parent.all_cells = gatherIndices l parent.all_cells from rfl,
      gatherIndices_eq]
    rw [show PopulationView.create parent (.idx l) =
        (match normIndices l parent.all_cells.length with
         | .ok pos => Except.ok (PopLike.view parent (.idx l)
             (pos.map (fun i => parent.all_cells.getD i 0)))
         | .error e => .error e) from rfl]
    cases normIndices l parent.all_cells.length <;> rfl
  | tup l =>
    rw [show npSelect (.tup l) parent.all_cells = gatherIndices l parent.all_cells from rfl,
      gatherIndices_eq]
    rw [show PopulationView.create parent (.tup l) =
        (match normIndices l parent.all_cells.length with
         | .ok pos => Except.ok (PopLike.view parent (.tup l)
             (pos.map (fun i => parent.all_cells.getD i 0)))
         | .error e => .error e) from rfl]
    cases normIndices l parent.all_cells.length <;> rfl

theorem create_ok_shape (parent : PopLike) (s : Selector) (v : PopLike)
    (h : PopulationView.create parent s = .ok v) :
    v.parentObj = some parent ∧ v.rootPop = parent.rootPop := by
  unfold PopulationView.create at h
  cases hres : resolveSelector s parent.size with
  | ok pos =>
    rw [hres] at h
    injection h with h2
    subst h2
    exact ⟨rfl, rfl⟩
  | error e =>
    rw [hres] at h
    cases h

/-- C1: for every Population `p` and every selector (slice, boolean mask of
the right length, integer index array, or integer tuple), the view
`PopulationView(p, s)` has `all_cells` equal to the NumPy-style selection of
`p.all_cells` by `s`, order preserved; invalid selectors fail identically on
both sides. -/
theorem popview_all_cells_eq_numpy_selection (p : Population) (s : Selector) :
    (PopulationView.create (.pop p) s).map PopLike.all_cells = npSelect s p.all_cells :=
  create_all_cells (.pop p) s

/-- C2: for a two-level view chain `pv2 = pv1[s2]` with `pv1 = p[s1]`,
`pv2.all_cells` equals the direct double NumPy-style indexing of
`p.all_cells` by `s1` then `s2`; `pv2.parent` is `pv1`, `pv1.parent` is `p`,
and root resolution by walking parents yields `p`. -/
theorem view_chain_composition (p : Population) (s1 s2 : Selector) (pv1 pv2 : PopLike)
    (h1 : PopulationView.create (.pop p) s1 = .ok pv1)
    (h2 : PopulationView.create pv1 s2 = .ok pv2) :
    (npSelect s1 p.all_cells >>= npSelect s2) = .ok pv2.all_cells ∧
      pv2.parentObj = some pv1 ∧ pv1.parentObj = some (.pop p) ∧ pv2.rootPop = p := by
  have e1 : npSelect s1 p.all_cells = .ok pv1.all_cells := by
    have h := create_all_cells (.pop p) s1
    rw [h1] at h
    exact h.symm
  have e2 : npSelect s2 pv1.all_cells = .ok pv2.all_cells := by
    have h := create_all_cells pv1 s2
    rw [h2] at h
    exact h.symm
  have sh1 := create_ok_shape _ _ _ h1
  have sh2 := create_ok_shape _ _ _ h2
  refine ⟨?_, sh2.1, sh1.1, ?_⟩
  · rw [e1, show (Except.ok pv1.all_cells >>= npSelect s2 :
        Except AddrError (List ID)) = npSelect s2 pv1.all_cells from rfl]
    exact e2
  · rw [sh2.2, sh1.2]
    rfl

/-- Witness for C2: the concrete population of size 17 and the selector pair
from the unit test (`p[1,5,6,8,11,12,15,16]` then `[2:6]`). -/
theorem view_chain_composition_witness :
    (npSelect (Selector.tup [1, 5, 6, 8, 11, 12, 15, 16])
        (Population.all_cells ⟨100, 17⟩) >>= npSelect (Selector.sl (some 2) (some 6) none)) =
      .ok (PopLike.view
        (.view (.pop ⟨100, 17⟩) (Selector.tup [1, 5, 6, 8, 11, 12, 15, 16])
          [101, 105, 106, 108, 111, 112, 115, 116])
        (Selector.sl (some 2) (some 6) none) [106, 108, 111, 112]).all_cells ∧
      (PopLike.view
        (.view (.pop ⟨100, 17⟩) (Selector.tup [1, 5, 6, 8, 11, 12, 15, 16])
          [101, 105, 106, 108, 111, 112, 115, 116])
        (Selector.sl (some 2) (some 6) none) [106, 108, 111, 112]).parentObj =
        some (.view (.pop ⟨100, 17⟩) (Selector.tup [1, 5, 6, 8, 11, 12, 15, 16])
          [101, 105, 106, 108, 111, 112, 115, 116]) ∧
      (PopLike.view (.pop ⟨100, 17⟩) (Selector.tup [1, 5, 6, 8, 11, 12, 15, 16])
        [101, 105, 106, 108, 111, 112, 115, 116]).parentObj = some (.pop ⟨100, 17⟩) ∧
      (PopLike.view
        (.view (.pop ⟨100, 17⟩) (Selector.tup [1, 5, 6, 8, 11, 12, 15, 16])
          [101, 105, 106, 108, 111, 112, 115, 116])
        (Selector.sl (some 2) (some 6) none) [106, 108, 111, 112]).rootPop = ⟨100, 17⟩ :=
  view_chain_composition ⟨100, 17⟩ (Selector.tup [1, 5, 6, 8, 11, 12, 15, 16])
    (Selector.sl (some 2) (some 6) none)
    (.view (.pop ⟨100, 17⟩) (Selector.tup [1, 5, 6, 8, 11, 12, 15, 16])
      [101, 105, 106, 108, 111, 112, 115, 116])
    (PopLike.view
      (.view (.pop ⟨100, 17⟩) (Selector.tup [1, 5, 6, 8, 11, 12, 15, 16])
        [101, 105, 106, 108, 111, 112, 115, 116])
      (Selector.sl (some 2) (some 6) none) [106, 108, 111, 112])
    (by decide) (by decide)

theorem findIdx_getD_of_nodup (xs : List ID) (hnd : xs.Nodup) (i : Nat) (hi : i < xs.length) :
    xs.findIdx? (fun x => x = xs.getD i 0) = some i := by
  induction xs generalizing i with
  | nil => simp at hi
  | cons x rest ih =>
    cases i with
    | zero => simp [List.findIdx?_cons]
    | succ j =>
      have hj : j < rest.length := by simpa using hi
      have hmem : rest.getD j 0 ∈ rest := by
        rw [List.getD_eq_getElem rest 0 hj]
        exact List.getElem_mem hj
      have hx : ¬(x = rest.getD j 0) := by
        intro hEq
        exact (List.nodup_cons.mp hnd).1 (hEq ▸ hmem)
      rw [List.findIdx?_cons]
      rw [List.getD_cons_succ]
      simp only [decide_eq_true_eq]
      rw [if_neg hx, List.findIdx?_succ, ih (List.nodup_cons.mp hnd).2 j hj]
      rfl

theorem findIdx_eq_none_of_not_mem (xs : List ID) (c : ID) (h : c ∉ xs) :
    xs.findIdx? (fun x => x = c) = none := by
  rw [List.findIdx?_eq_none_iff]
  intro x hx
  simp only [decide_eq_false_iff_not]
  intro hEq
  exact h (hEq ▸ hx)

/-- C3: on a view whose materialized identifiers are duplicate-free (the
spec's strict-subsequence invariant), `id_to_index` inverts view indexing:
`id_to_index(all_cells[i]) = i` for every `i < size`; an identifier that is
not a member of the view yields the addressing error; and the array form
maps a list of view identifiers to the list of their view-local indices. -/
theorem id_to_index_inverts_view_indexing (pl : PopLike) (hnd : pl.all_cells.Nodup) :
    (∀ i, i < pl.size → pl.id_to_index (pl.all_cells.getD i 0) = .ok i) ∧
    (∀ c : ID, c ∉ pl.all_cells → pl.id_to_index c = .error .indexError) ∧
    (∀ pos : List Nat, (∀ j ∈ pos, j < pl.size) →
      pl.ids_to_indices (pos.map (fun j => pl.all_cells.getD j 0)) = .ok pos) := by
  have single : ∀ i, i < pl.size → pl.id_to_index (pl.all_cells.getD i 0) = .ok i := by
    intro i hi
    unfold PopLike.id_to_index
    rw [findIdx_getD_of_nodup pl.all_cells hnd i hi]
  refine ⟨single, ?_, ?_⟩
  · intro c hc
    unfold PopLike.id_to_index
    rw [findIdx_eq_none_of_not_mem pl.all_cells c hc]
  · intro pos hpos
    induction pos with
    | nil => rfl
    | cons j rest ih =>
      have hj : j < pl.size := hpos j (List.mem_cons_self j rest)
      have hrest : ∀ k ∈ rest, k < pl.size := fun k hk => hpos k (List.mem_cons_of_mem j hk)
      rw [List.map_cons]
      show (match pl.id_to_index (pl.all_cells.getD j 0),
          pl.ids_to_indices (rest.map (fun k => pl.all_cells.getD k 0)) with
        | .ok a, .ok js => Except.ok (a :: js)
        | .error e, _ => .error e
        | .ok _, .error e => .error e) = .ok (j :: rest)
      rw [single j hj, ih hrest]

/-- Witness for C3: the view `p[2, 5, 7, 8]` of an 11-unit population from
the unit test. -/
theorem id_to_index_inverts_view_indexing_witness :
    (PopLike.view (.pop ⟨1, 11⟩) (Selector.tup [2, 5, 7, 8]) [3, 6, 8, 9]).all_cells.Nodup ∧
    (PopLike.view (.pop ⟨1, 11⟩) (Selector.tup [2, 5, 7, 8]) [3, 6, 8, 9]).id_to_index 6 =
      .ok 1 ∧
    (PopLike.view (.pop ⟨1, 11⟩) (Selector.tup [2, 5, 7, 8]) [3, 6, 8, 9]).id_to_index 1 =
      .error .indexError ∧
    (PopLike.view (.pop ⟨1, 11⟩) (Selector.tup [2, 5, 7, 8]) [3, 6, 8, 9]).ids_to_indices
      [6, 9] = .ok [1, 3] := by
  have hnd : (PopLike.view (.pop ⟨1, 11⟩) (Selector.tup [2, 5, 7, 8])
      [3, 6, 8, 9]).all_cells.Nodup := by decide
  have h := id_to_index_inverts_view_indexing
    (PopLike.view (.pop ⟨1, 11⟩) (Selector.tup [2, 5, 7, 8]) [3, 6, 8, 9]) hnd
  refine ⟨hnd, ?_, h.2.1 1 (by decide), ?_⟩
  · exact h.1 1 (by decide)
  · exact h.2.2 [1, 3] (by decide)

theorem writeAt_getD_not_mem (ps : List Nat) (vs : List ℚ) (st : List ℚ) (j : Nat)
    (hj : j ∉ ps) :
    (writeAt st ps vs).getD j 0 = st.getD j 0 := by
  induction ps generalizing vs st with
  | nil => simp [writeAt]
  | cons p ps ih =>
    cases vs with
    | nil => simp [writeAt]
    | cons v vs =>
      have hjp : j ≠ p := fun h => hj (h ▸ List.mem_cons_self p ps)
      have hjrest : j ∉ ps := fun h => hj (List.mem_cons_of_mem p h)
      rw [show writeAt st (p :: ps) (v :: vs) = writeAt (st.set p v) ps vs from by
        simp [writeAt]]
      rw [ih vs (st.set p v) hjrest]
      rw [List.getD_eq_getElem?_getD, List.getD_eq_getElem?_getD,
        List.getElem?_set_ne (fun h => hjp h.symm)]

theorem writeAt_length (ps : List Nat) (vs : List ℚ) (st : List ℚ) :
    (writeAt st ps vs).length = st.length := by
  induction ps generalizing vs st with
  | nil => simp [writeAt]
  | cons p ps ih =>
    cases vs with
    | nil => simp [writeAt]
    | cons v vs =>
      rw [show writeAt st (p :: ps) (v :: vs) = writeAt (st.set p v) ps vs from by
        simp [writeAt]]
      rw [ih vs (st.set p v), List.length_set]

theorem map_getD_writeAt (ps : List Nat) (vs : List ℚ) (st : List ℚ)
    (hnd : ps.Nodup) (hlen : vs.length = ps.length) (hb : ∀ p ∈ ps, p < st.length) :
    ps.map (fun p => (writeAt st ps vs).getD p 0) = vs := by
  induction ps generalizing vs st with
  | nil =>
    cases vs with
    | nil => rfl
    | cons v vs => simp at hlen
  | cons p ps ih =>
    cases vs with
    | nil => simp at hlen
    | cons v vs =>
      have hpn : p ∉ ps := (List.nodup_cons.mp hnd).1
      have hnd2 : ps.Nodup := (List.nodup_cons.mp hnd).2
      have hlen2 : vs.length = ps.length := by simpa using hlen
      have hp : p < st.length := hb p (List.mem_cons_self p ps)
      have hb2 : ∀ q ∈ ps, q < (st.set p v).length := by
        intro q hq
        rw [List.length_set]
        exact hb q (List.mem_cons_of_mem p hq)
      rw [List.map_cons]
      rw [show writeAt st (p :: ps) (v :: vs) = writeAt (st.set p v) ps vs from by
        simp [writeAt]]
      have hhead : (writeAt (st.set p v) ps vs).getD p 0 = v := by
        rw [writeAt_getD_not_mem ps vs (st.set p v) p hpn]
        rw [List.getD_eq_getElem?_getD, List.getElem?_set_self hp]
        rfl
      have htail := ih vs (st.set p v) hnd2 hlen2 hb2
      rw [hhead]
      have : ps.map (fun q => (writeAt (st.set p v) ps vs).getD q 0) = vs := htail
      rw [this]

/-- C4: writing an array through a view touches exactly the addressed root
positions: reading back through the view returns the written array in view
order, and every root position outside the view keeps its prior value. -/
theorem view_set_get_roundtrip_and_frame (pl : PopLike) (vals : List ℚ) (st : List ℚ)
    (hnd : pl.rootPositions.Nodup) (hlen : vals.length = pl.size)
    (hb : ∀ p ∈ pl.rootPositions, p < st.length) :
    pl.getP (pl.setP vals st) = vals ∧
      (∀ j, j ∉ pl.rootPositions → (pl.setP vals st).getD j 0 = st.getD j 0) := by
  constructor
  · have hlen2 : vals.length = pl.rootPositions.length := by
      rw [hlen]
      show pl.all_cells.length = (pl.all_cells.map _).length
      rw [List.length_map]
    exact map_getD_writeAt pl.rootPositions vals st hnd hlen2 hb
  · intro j hj
    exact writeAt_getD_not_mem pl.rootPositions vals st j hj

/-- Witness for C4: the view `p[2:]` of a 5-unit population from the unit
test (`test_set_array`), writing `[-50, -49, -48]` over `[-54.3, ...]`. -/
theorem view_set_get_roundtrip_and_frame_witness :
    (PopLike.view (.pop ⟨0, 5⟩) (Selector.sl (some 2) none none) [2, 3, 4]).getP
        ((PopLike.view (.pop ⟨0, 5⟩) (Selector.sl (some 2) none none) [2, 3, 4]).setP
          [-50, -49, -48] [-543/10, -543/10, -543/10, -543/10, -543/10]) =
      [-50, -49, -48] ∧
    (∀ j, j ∉ (PopLike.view (.pop ⟨0, 5⟩) (Selector.sl (some 2) none none)
        [2, 3, 4]).rootPositions →
      ((PopLike.view (.pop ⟨0, 5⟩) (Selector.sl (some 2) none none) [2, 3, 4]).setP
          [-50, -49, -48] [-543/10, -543/10, -543/10, -543/10, -543/10]).getD j 0 =
        [-543/10, -543/10, -543/10, -543/10, -543/10].getD j 0) :=
  view_set_get_roundtrip_and_frame
    (PopLike.view (.pop ⟨0, 5⟩) (Selector.sl (some 2) none none) [2, 3, 4])
    [-50, -49, -48] [-543/10, -543/10, -543/10, -543/10, -543/10]
    (by decide) (by decide) (by decide)

/-- C5: `get` through a view returns the single shared scalar exactly when
every addressed unit holds that one value (and the view is non-empty);
whenever two addressed units disagree, it returns the per-unit array in
view order. -/
theorem get_scalar_iff_homogeneous (pl : PopLike) (pv : ParamValue) :
    (∀ c : ℚ, pl.getParam pv = .scalar c ↔
      (0 < pl.size ∧ ∀ x ∈ pl.rootPositions.map (ParamValue.evalAt pv), x = c)) ∧
    ((∃ x ∈ pl.rootPositions.map (ParamValue.evalAt pv),
        ∃ y ∈ pl.rootPositions.map (ParamValue.evalAt pv), x ≠ y) →
      pl.getParam pv = .array (pl.rootPositions.map (ParamValue.evalAt pv))) := by
  have hsize : pl.rootPositions.length = pl.size := by
    show (pl.all_cells.map _).length = pl.all_cells.length
    rw [List.length_map]
  constructor
  · intro c
    unfold PopLike.getParam
    cases hvals : pl.rootPositions.map (ParamValue.evalAt pv) with
    | nil =>
      constructor
      · intro h
        cases h
      · intro ⟨hpos, _⟩
        exfalso
        have h0 : (pl.rootPositions.map (ParamValue.evalAt pv)).length = 0 := by
          rw [hvals]
          rfl
        rw [List.length_map, hsize] at h0
        omega
    | cons x rest =>
      have hpos : 0 < pl.size := by
        have h1 : (pl.rootPositions.map (ParamValue.evalAt pv)).length = rest.length + 1 := by
          rw [hvals]
          exact List.length_cons x rest
        rw [List.length_map, hsize] at h1
        omega
      simp only [simplifyValues]
      constructor
      · intro h
        refine ⟨hpos, ?_⟩
        split at h
        · injection h with hxc
          subst hxc
          next hall =>
            intro y hy
            rcases List.mem_cons.mp hy with h1 | h2
            · exact h1
            · exact of_decide_eq_true (List.all_eq_true.mp hall y h2)
        · cases h
      · intro ⟨_, hall⟩
        have hx : x = c := hall x (List.mem_cons_self x rest)
        have hrest : rest.all (fun y => y = x) = true := by
          rw [List.all_eq_true]
          intro y hy
          apply decide_eq_true
          rw [hall y (List.mem_cons_of_mem x hy), hx]
        rw [if_pos hrest, hx]
  · intro ⟨x, hx, y, hy, hxy⟩
    unfold PopLike.getParam
    cases hvals : pl.rootPositions.map (ParamValue.evalAt pv) with
    | nil =>
      rw [hvals] at hx
      cases hx
    | cons z rest =>
      rw [hvals] at hx hy
      simp only [simplifyValues]
      have hall : ¬(rest.all (fun w => w = z) = true) := by
        intro hall
        have hval : ∀ w ∈ z :: rest, w = z := by
          intro w hw
          rcases List.mem_cons.mp hw with h1 | h2
          · exact h1
          · exact of_decide_eq_true (List.all_eq_true.mp hall w h2)
        exact hxy ((hval x hx).trans (hval y hy).symm)
      rw [if_neg hall]

/-- Witness for C5: a 3-unit whole-population view with a homogeneous and an
inhomogeneous stored parameter. -/
theorem get_scalar_iff_homogeneous_witness :
    (PopLike.view (.pop ⟨0, 3⟩) (Selector.sl none none none) [0, 1, 2]).getParam
        (.homogeneous 987) = .scalar 987 ∧
    (PopLike.view (.pop ⟨0, 3⟩) (Selector.sl none none none) [0, 1, 2]).getParam
        (.perUnit [987, 988, 989]) = .array [987, 988, 989] := by
  constructor
  · exact ((get_scalar_iff_homogeneous
      (PopLike.view (.pop ⟨0, 3⟩) (Selector.sl none none none) [0, 1, 2])
      (.homogeneous 987)).1 987).mpr (by decide)
  · have h := (get_scalar_iff_homogeneous
      (PopLike.view (.pop ⟨0, 3⟩) (Selector.sl none none none) [0, 1, 2])
      (.perUnit [987, 988, 989])).2 (by decide)
    rw [h]
    rfl

/-- C6: recording variable A, running for `d1`, resetting, additionally
recording variable B and running for `d2` yields exactly two segments: the
first holds only the A series, the second holds both the A and B series, and
every series has shape `(round(duration / sampling_period) + 1, nUnits)`,
inclusive of the initial sample at t = 0. -/
theorem recording_segmentation_two_runs (A B : String) (hAB : A ≠ B) (d1 d2 dt : ℚ)
    (n : Nat) :
    getDataSegs dt n
        (runFor d2 (recordVar B (resetRec (runFor d1 (recordVar A initRecState))))) =
      [[(A, sampleCount dt d1, n)],
       [(A, sampleCount dt d2, n), (B, sampleCount dt d2, n)]] := by
  have h1 : recordVar A initRecState = ⟨[A], [], 0⟩ := by
    unfold recordVar initRecState
    rw [if_neg (List.not_mem_nil A)]
    rfl
  have h2 : runFor d1 (⟨[A], [], 0⟩ : RecState) = ⟨[A], [], 0 + d1⟩ := rfl
  have h3 : resetRec (⟨[A], [], 0 + d1⟩ : RecState) =
      ⟨[A], [⟨[A], 0 + d1⟩], 0⟩ := rfl
  have h4 : recordVar B (⟨[A], [⟨[A], 0 + d1⟩], 0⟩ : RecState) =
      ⟨[A, B], [⟨[A], 0 + d1⟩], 0⟩ := by
    unfold recordVar
    rw [if_neg (by simpa using fun h => hAB h.symm)]
    rfl
  have h5 : runFor d2 (⟨[A, B], [⟨[A], 0 + d1⟩], 0⟩ : RecState) =
      ⟨[A, B], [⟨[A], 0 + d1⟩], 0 + d2⟩ := rfl
  rw [h1, h2, h3, h4, h5]
  unfold getDataSegs
  rw [zero_add, zero_add]
  rfl

/-- Witness for C6: variables v and w, runs of 12.3 and 14.5 time units at
sampling period 0.1, over 5 recorded units. -/
theorem recording_segmentation_two_runs_witness :
    getDataSegs (1/10) 5
        (runFor (29/2) (recordVar "w" (resetRec (runFor (123/10)
          (recordVar "v" initRecState))))) =
      [[("v", sampleCount (1/10) (123/10), 5)],
       [("v", sampleCount (1/10) (29/2), 5), ("w", sampleCount (1/10) (29/2), 5)]] :=
  recording_segmentation_two_runs "v" "w" (by decide) (123/10) (29/2) (1/10) 5

theorem recordedUnits_markRecorded_self (v : String) (qs : List Nat)
    (st : List (String × List Nat)) (x : Nat) (hx : x ∈ qs) :
    x ∈ recordedUnits v (markRecorded v qs st) := by
  induction st with
  | nil =>
    show x ∈ recordedUnits v [(v, qs)]
    unfold recordedUnits
    rw [if_pos rfl]
    exact hx
  | cons hd rest ih =>
    obtain ⟨w, ps⟩ := hd
    show x ∈ recordedUnits v
      (if w = v then (w, ps ++ qs) :: rest else (w, ps) :: markRecorded v qs rest)
    by_cases hw : w = v
    · rw [if_pos hw]
      unfold recordedUnits
      rw [if_pos hw]
      exact List.mem_append_right ps hx
    · rw [if_neg hw]
      unfold recordedUnits
      rw [if_neg hw]
      exact ih

theorem recordedUnits_markRecorded_mono (v w : String) (qs : List Nat)
    (st : List (String × List Nat)) (x : Nat) (hx : x ∈ recordedUnits v st) :
    x ∈ recordedUnits v (markRecorded w qs st) := by
  induction st with
  | nil => cases hx
  | cons hd rest ih =>
    obtain ⟨u, ps⟩ := hd
    show x ∈ recordedUnits v
      (if u = w then (u, ps ++ qs) :: rest else (u, ps) :: markRecorded w qs rest)
    by_cases hu : u = w
    · rw [if_pos hu]
      unfold recordedUnits
      by_cases huv : u = v
      · rw [if_pos huv]
        have hx2 : x ∈ ps := by
          have := hx
          unfold recordedUnits at this
          rwa [if_pos huv] at this
        exact List.mem_append_left qs hx2
      · rw [if_neg huv]
        have hx2 : x ∈ recordedUnits v rest := by
          have := hx
          unfold recordedUnits at this
          rwa [if_neg huv] at this
        exact hx2
    · rw [if_neg hu]
      unfold recordedUnits
      by_cases huv : u = v
      · rw [if_pos huv]
        have := hx
        unfold recordedUnits at this
        rwa [if_pos huv] at this
      · rw [if_neg huv]
        apply ih
        have := hx
        unfold recordedUnits at this
        rwa [if_neg huv] at this

theorem recordedUnits_foldl_mono (names : List String) (v : String) (qs : List Nat)
    (st : List (String × List Nat)) (x : Nat) (hx : x ∈ recordedUnits v st) :
    x ∈ recordedUnits v
      (names.foldl (fun acc w => markRecorded w qs acc) st) := by
  induction names generalizing st with
  | nil => exact hx
  | cons nm rest ih =>
    rw [List.foldl_cons]
    exact ih (markRecorded nm qs st) (recordedUnits_markRecorded_mono v nm qs st x hx)

/-- C7: `record(names)` through a view succeeds exactly when every requested
name is in the owning cell type's recordable set, in which case every
addressed unit is marked as recording each name; any name outside the set
yields the recording error.  In particular requesting `gsyn_exc` from
`IF_curr_alpha` (recordable set: spikes, v) fails. -/
theorem record_requires_recordable (ct : CellTypeData) (names : List String)
    (positions : List Nat) (st : List (String × List Nat)) :
    ((∀ v ∈ names, v ∈ ct.recordable) →
      ∃ st2, recordOp ct names positions st = .ok st2 ∧
        ∀ v ∈ names, ∀ x ∈ positions, x ∈ recordedUnits v st2) ∧
    ((¬ ∀ v ∈ names, v ∈ ct.recordable) →
      recordOp ct names positions st = .error "RecordingError") ∧
    recordOp IF_curr_alpha ["v", "gsyn_exc"] positions st = .error "RecordingError" := by
  refine ⟨?_, ?_, ?_⟩
  · intro hall
    have hcond : names.all (fun v => ct.recordable.contains v) = true := by
      rw [List.all_eq_true]
      intro v hv
      have hc : ct.recordable.contains v = true := by simpa using hall v hv
      simpa using hc
    refine ⟨names.foldl (fun acc v => markRecorded v positions acc) st, ?_, ?_⟩
    · unfold recordOp
      rw [if_pos hcond]
    · intro v hv x hx
      obtain ⟨l1, l2, hsplit⟩ := List.append_of_mem hv
      subst hsplit
      rw [List.foldl_append, List.foldl_cons]
      exact recordedUnits_foldl_mono l2 v positions _ x
        (recordedUnits_markRecorded_self v positions _ x hx)
  · intro hnot
    have hcond : ¬(names.all (fun v => ct.recordable.contains v) = true) := by
      intro hcond
      apply hnot
      intro v hv
      have hc := List.all_eq_true.mp hcond v hv
      simpa using hc
    unfold recordOp
    rw [if_neg hcond]
  · unfold recordOp
    rw [if_neg (by decide)]

/-- Witness for C7: recording v alone on `IF_curr_alpha` succeeds and marks
the addressed units; requesting v together with gsyn_exc fails. -/
theorem record_requires_recordable_witness :
    ((∀ v ∈ ["v"], v ∈ IF_curr_alpha.recordable) →
      ∃ st2, recordOp IF_curr_alpha ["v"] [0, 3, 6, 9, 12] [] = .ok st2 ∧
        ∀ v ∈ ["v"], ∀ x ∈ [0, 3, 6, 9, 12], x ∈ recordedUnits v st2) ∧
    ((¬ ∀ v ∈ ["v"], v ∈ IF_curr_alpha.recordable) →
      recordOp IF_curr_alpha ["v"] [0, 3, 6, 9, 12] [] = .error "RecordingError") ∧
    recordOp IF_curr_alpha ["v", "gsyn_exc"] [0, 3, 6, 9, 12] [] =
      .error "RecordingError" :=
  record_requires_recordable IF_curr_alpha ["v"] [0, 3, 6, 9, 12] []

theorem normIndices_ofNat (js : List Nat) (n : Nat) (hjs : ∀ j ∈ js, j < n) :
    normIndices (js.map Int.ofNat) n = .ok js := by
  induction js with
  | nil => rfl
  | cons j rest ih =>
    have hj : j < n := hjs j (List.mem_cons_self j rest)
    have hrest : ∀ k ∈ rest, k < n := fun k hk => hjs k (List.mem_cons_of_mem j hk)
    have hnorm : normIndex (Int.ofNat j) n = .ok j := by
      unfold normIndex
      have hnneg : ¬((Int.ofNat j : Int) < 0) := by
        simp [Int.ofNat_nonneg]
      rw [if_neg hnneg]
      rw [if_pos ⟨Int.ofNat_nonneg j, by
        rw [show (Int.ofNat j : Int) = (j : Int) from rfl]
        exact_mod_cast hj⟩]
      simp
    rw [List.map_cons]
    show (match normIndex (Int.ofNat j) n, normIndices (rest.map Int.ofNat) n with
      | .ok a, .ok as => Except.ok (a :: as)
      | .error e, _ => .error e
      | .ok _, .error e => .error e) = .ok (j :: rest)
    rw [hnorm, ih hrest]

theorem nodup_map_getD (ps : List Nat) (xs : List ID) (hnd : ps.Nodup)
    (hb : ∀ p ∈ ps, p < xs.length) (hxs : xs.Nodup) :
    (ps.map (fun p => xs.getD p 0)).Nodup := by
  induction ps with
  | nil => exact List.nodup_nil
  | cons p ps ih =>
    have hp : p < xs.length := hb p (List.mem_cons_self p ps)
    have hbrest : ∀ q ∈ ps, q < xs.length := fun q hq => hb q (List.mem_cons_of_mem p hq)
    rw [List.map_cons, List.nodup_cons]
    refine ⟨?_, ih (List.nodup_cons.mp hnd).2 hbrest⟩
    intro hmem
    obtain ⟨q, hq, heq⟩ := List.mem_map.mp hmem
    have hqlt : q < xs.length := hbrest q hq
    have : q = p := by
      have h1 : xs.getD q 0 = xs.getD p 0 := heq
      rw [List.getD_eq_getElem xs 0 hqlt, List.getD_eq_getElem xs 0 hp] at h1
      exact (List.Nodup.getElem_inj_iff hxs).mp h1
    exact (List.nodup_cons.mp hnd).1 (this ▸ hq)

/-- C8: for a view of size n and a caller-supplied permutation pi of
0..n-1, `sample(k, pi)` returns a new view whose `all_cells` are the view's
identifiers at positions pi[0], ..., pi[k-1], in permutation order; when the
view's identifiers are distinct the k sampled units are unique. -/
theorem sample_takes_permutation_order (pl : PopLike) (k : Nat) (perm : List Nat)
    (hperm : perm.Perm (List.range pl.size)) :
    ∃ v, pl.sample k perm = .ok v ∧
      v.all_cells = (perm.take k).map (fun j => pl.all_cells.getD j 0) ∧
      (pl.all_cells.Nodup → v.all_cells.Nodup) := by
  have hlt : ∀ j ∈ perm.take k, j < pl.size := by
    intro j hj
    have hmem : j ∈ perm := List.mem_of_mem_take hj
    have : j ∈ List.range pl.size := hperm.mem_iff.mp hmem
    exact List.mem_range.mp this
  have hres : resolveSelector (.idx ((perm.take k).map Int.ofNat)) pl.size =
      .ok (perm.take k) :=
    normIndices_ofNat (perm.take k) pl.size hlt
  refine ⟨.view pl (.idx ((perm.take k).map Int.ofNat))
    ((perm.take k).map (fun j => pl.all_cells.getD j 0)), ?_, rfl, ?_⟩
  · unfold PopLike.sample PopulationView.create
    rw [hres]
  · intro hnd
    have hndtake : (perm.take k).Nodup :=
      (List.take_sublist k perm).nodup (hperm.nodup_iff.mpr (List.nodup_range pl.size))
    exact nodup_map_getD (perm.take k) pl.all_cells hndtake hlt hnd

/-- Witness for C8: the unit test's view of 5 units of a 13-unit population,
permutation [3, 1, 0, 2, 4], k = 3. -/
theorem sample_takes_permutation_order_witness :
    (List.Perm [3, 1, 0, 2, 4] (List.range
      (PopLike.view (.pop ⟨7, 13⟩) (Selector.tup [0, 3, 7, 10, 12])
        [7, 10, 14, 17, 19]).size)) ∧
    ∃ v, (PopLike.view (.pop ⟨7, 13⟩) (Selector.tup [0, 3, 7, 10, 12])
        [7, 10, 14, 17, 19]).sample 3 [3, 1, 0, 2, 4] = .ok v ∧
      v.all_cells = (([3, 1, 0, 2, 4].take 3).map
        (fun j => (PopLike.view (.pop ⟨7, 13⟩) (Selector.tup [0, 3, 7, 10, 12])
          [7, 10, 14, 17, 19]).all_cells.getD j 0)) ∧
      ((PopLike.view (.pop ⟨7, 13⟩) (Selector.tup [0, 3, 7, 10, 12])
        [7, 10, 14, 17, 19]).all_cells.Nodup → v.all_cells.Nodup) :=
  ⟨by decide, sample_takes_permutation_order
    (PopLike.view (.pop ⟨7, 13⟩) (Selector.tup [0, 3, 7, 10, 12]) [7, 10, 14, 17, 19])
    3 [3, 1, 0, 2, 4] (by decide)⟩

theorem lookup_setKey_self (k : String) (v : PyVal) (params : List (String × PyVal))
    (w : PyVal) (h : params.lookup k = some w) :
    (setKey k v params).lookup k = some v := by
  induction params with
  | nil => cases h
  | cons hd rest ih =>
    obtain ⟨k2, v2⟩ := hd
    show (if k2 = k then (k2, v) :: rest else (k2, v2) :: setKey k v rest).lookup k = some v
    by_cases hk : k2 = k
    · rw [if_pos hk]
      subst hk
      simp [List.lookup]
    · rw [if_neg hk]
      have hne : ¬(k == k2) = true := by
        simp only [beq_iff_eq]
        exact fun hc => hk hc.symm
      have hstep : ∀ (vv : PyVal) (l : List (String × PyVal)),
          List.lookup k ((k2, vv) :: l) = List.lookup k l := by
        intro vv l
        simp [List.lookup, hne]
      rw [hstep v2 rest] at h
      rw [hstep v2 (setKey k v rest)]
      exact ih h

/-- C9: `SpikeSourceArray.__init__` converts the `spike_times` entry of a
non-empty parameters mapping to a float array with the same elements before
delegating to the base constructor; an empty parameters mapping or one
without `spike_times` is passed through unchanged, and the declared default
`spike_times` is the empty list. -/
theorem spike_source_array_init_conversion :
    (∀ (params : List (String × PyVal)) (ts : List ℚ),
      params.lookup "spike_times" = some (.list ts) →
      (SpikeSourceArray.init params).lookup "spike_times" = some (.floatArray ts)) ∧
    SpikeSourceArray.init [] = [] ∧
    (∀ params : List (String × PyVal),
      params.lookup "spike_times" = none → SpikeSourceArray.init params = params) ∧
    SpikeSourceArray.default_parameters.lookup "spike_times" = some (.list []) := by
  refine ⟨?_, rfl, ?_, rfl⟩
  · intro params ts h
    have hne : params.isEmpty = false := by
      cases params with
      | nil => cases h
      | cons hd rest => rfl
    unfold SpikeSourceArray.init
    rw [hne]
    show (match params.lookup "spike_times" with
      | some v => setKey "spike_times" (numpyFloatArray v) params
      | none => params).lookup "spike_times" = some (.floatArray ts)
    rw [h]
    exact lookup_setKey_self "spike_times" (numpyFloatArray (.list ts)) params (.list ts) h
  · intro params h
    unfold SpikeSourceArray.init
    cases hE : params.isEmpty with
    | true => rfl
    | false =>
      show (match params.lookup "spike_times" with
        | some v => setKey "spike_times" (numpyFloatArray v) params
        | none => params) = params
      rw [h]

/-- Witness for C9: the concrete parameters mapping spike_times = [1,2,3]. -/
theorem spike_source_array_init_conversion_witness :
    (SpikeSourceArray.init [("spike_times", .list [1, 2, 3])]).lookup "spike_times" =
      some (.floatArray [1, 2, 3]) ∧
    SpikeSourceArray.init [("rate", .num 5)] = [("rate", .num 5)] :=
  ⟨spike_source_array_init_conversion.1 [("spike_times", .list [1, 2, 3])] [1, 2, 3] rfl,
   spike_source_array_init_conversion.2.2.1 [("rate", .num 5)] rfl⟩

/-- C10: `Timer.diff` with the default format returns the time elapsed since
the previous checkpoint (set by `start`, `elapsedTime`, or a previous
`diff`) and advances the checkpoint to the current time; `diff` with
`format='long'` always fails, because that branch reads the unbound name
`elapsed_time`. -/
theorem timer_diff_default_and_long_error :
    (∀ (t : Timer) (now : ℚ),
      Timer.diff t now .default = .ok (now - t.last_check, ⟨t.start_time, now⟩)) ∧
    (∀ (t0 now : ℚ),
      Timer.diff (Timer.start t0) now .default = .ok (now - t0, ⟨t0, now⟩)) ∧
    (∀ (t : Timer) (t1 now : ℚ),
      Timer.diff (Timer.elapsedTime t t1).2 now .default =
        .ok (now - t1, ⟨t.start_time, now⟩)) ∧
    (∀ (t : Timer) (d1 now : ℚ) (r : ℚ × Timer),
      Timer.diff t d1 .default = .ok r →
      Timer.diff r.2 now .default = .ok (now - d1, ⟨t.start_time, now⟩)) ∧
    (∀ (t : Timer) (now : ℚ), Timer.diff t now .long = .error "NameError") := by
  refine ⟨fun t now => rfl, fun t0 now => rfl, fun t t1 now => rfl, ?_, fun t now => rfl⟩
  intro t d1 now r h
  have : r = (d1 - t.last_check, ⟨t.start_time, d1⟩) := by
    have h0 : Timer.diff t d1 .default = .ok (d1 - t.last_check, ⟨t.start_time, d1⟩) := rfl
    rw [h0] at h
    exact (Except.ok.inj h).symm
  rw [this]
  rfl

/-- Witness for C10: a timer started at 2, checked by diff at 5 and 9. -/
theorem timer_diff_default_and_long_error_witness :
    Timer.diff (Timer.start 2) 5 .default = .ok (5 - 2, ⟨2, 5⟩) ∧
    Timer.diff (⟨2, 5⟩ : Timer) 9 .default = .ok (9 - 5, ⟨2, 9⟩) ∧
    Timer.diff (⟨2, 5⟩ : Timer) 9 .long = .error "NameError" :=
  ⟨timer_diff_default_and_long_error.2.1 2 5,
   timer_diff_default_and_long_error.2.2.2.1 (⟨2, 2⟩ : Timer) 5 9
     ((5 : ℚ) - 2, (⟨2, 5⟩ : Timer)) rfl,
   timer_diff_default_and_long_error.2.2.2.2 (⟨2, 5⟩ : Timer) 9⟩
